import Mathlib

/-!
Shallow embedding of the Order Analytics Aggregation Engine of
`src/src/pages/Analytics.tsx` (function `fetchAnalytics`, lines 44-138).

Modelling decisions, each justified by the source:
* Monetary amounts and quantities are JS numbers; they are modelled as `Rat`
  (the spec treats them as exact decimals).
* Timestamps are modelled as `Int` milliseconds since the epoch.
  `order.createdAt?.toDate?.() || new Date(0)` is modelled by
  `Option Int` with `none` for a missing or unparseable timestamp, which the
  code coerces to the epoch (`0`).
* A JS object used as a group-by accumulator is an insertion-ordered map with
  unique string keys (property insertion order; the ids in play are Firestore
  document ids, which are not array-index-like).  It is modelled as an
  association list upserted in place: update the first matching key, append a
  fresh key at the end.
* `Array.prototype.sort` is a stable sort; it is modelled by `List.mergeSort`
  with the boolean translation of the numeric comparator.
* `toLocaleDateString` buckets an instant into the viewer's calendar day; the
  model fixes the UTC calendar, so the bucket key of instant `t` is
  `t.fdiv msPerDay`.  A missing timestamp yields the sentinel key string
  "Unknown" in the source, modelled as the key `none : Option Int`; the
  source comparator then computes `NaN`, which `Array.prototype.sort` treats
  as `0` (equal), matching `dateAscB` returning `true` on either `none`.
-/

namespace HuskThreads

/-- Denormalized line item stored inside an order document
(`order.products[i]` in the source). -/
structure LineItem where
  productId : String
  name : String
  price : Rat
  quantity : Rat
  deriving DecidableEq, Repr

/-- Order document: `createdAt` and `totalAmount` and `status` are
missing-tolerant; a missing `products` array is the empty list
(`order.products?.forEach` skips it). -/
structure Order where
  id : String
  createdAt : Option Int
  totalAmount : Option Rat
  status : Option String
  products : List LineItem
  deriving DecidableEq, Repr

/-- Product document (only the fields the engine reads). -/
structure Product where
  id : String
  categoryId : String
  deriving DecidableEq, Repr

/-- Category document. -/
structure Category where
  id : String
  name : String
  deriving DecidableEq, Repr

/-- The three collections fetched at the start of `fetchAnalytics`. -/
structure Snapshot where
  orders : List Order
  products : List Product
  categories : List Category
  deriving DecidableEq, Repr

/-- Milliseconds per day. -/
def msPerDay : Int := 86400000

/-- Timestamp of an order: `order.createdAt?.toDate?.() || new Date(0)`. -/
def tsOf (o : Order) : Int := o.createdAt.getD 0

/-- The cutoff instant: `cutoffDate.setDate(cutoffDate.getDate() - daysAgo)`
subtracts `daysAgo` calendar days from `now`, keeping the time of day. -/
def cutoff (now windowDays : Int) : Int := now - windowDays * msPerDay

/-- The time window filter (source lines 62-65):
retain an order iff `orderDate >= cutoffDate`. -/
def filterByWindow (orders : List Order) (now windowDays : Int) : List Order :=
  orders.filter (fun o => decide (cutoff now windowDays ≤ tsOf o))

/-- Modelled from the spec: the cutoff as claim C3 words it, `now` minus
`windowDays` days truncated to the start of the current day.  Present only to
compare the spec's wording against the code's `cutoff`; the code is the
authority. -/
def cutoffSpec (now windowDays : Int) : Int :=
  now.fdiv msPerDay * msPerDay - windowDays * msPerDay

/-- `order.totalAmount || 0` (source line 68). -/
def amtOf (o : Order) : Rat := o.totalAmount.getD 0

/-- `filteredOrders.reduce((sum, order) => sum + (order.totalAmount || 0), 0)`. -/
def totalRevenue (l : List Order) : Rat := (l.map amtOf).sum

/-- `filteredOrders.length`. -/
def totalOrders (l : List Order) : Nat := l.length

/-- `totalOrders > 0 ? totalRevenue / totalOrders : 0` (source line 70). -/
def averageOrderValue (l : List Order) : Rat :=
  if 0 < totalOrders l then totalRevenue l / (totalOrders l : Rat) else 0

/-- One value of the `productSales` accumulator object, keyed by `productId`;
`name` is the line-item name captured at first encounter. -/
structure PGroup where
  productId : String
  name : String
  sales : Rat
  revenue : Rat
  deriving DecidableEq, Repr

/-- One step of the `productSales` accumulation (source lines 76-80): create
the entry on first encounter of the product id, then add
`quantity` to `sales` and `price * quantity` to `revenue`. -/
def addSale (acc : List PGroup) (it : LineItem) : List PGroup :=
  match acc with
  | [] => [{ productId := it.productId, name := it.name,
             sales := it.quantity, revenue := it.price * it.quantity }]
  | g :: rest =>
    if g.productId = it.productId then
      { g with sales := g.sales + it.quantity,
               revenue := g.revenue + it.price * it.quantity } :: rest
    else
      g :: addSale rest it

/-- The `productSales` object after the nested `forEach` loops
(source lines 73-82), in key insertion order. -/
def productSales (l : List Order) : List PGroup :=
  l.foldl (fun acc o => o.products.foldl addSale acc) []

/-- Boolean form of the comparator `(a, b) => b.revenue - a.revenue`:
`a` may stay before `b` iff the comparator is `<= 0`. -/
def revDescB (a b : PGroup) : Bool := decide (b.revenue ≤ a.revenue)

/-- `Object.values(productSales).sort((a, b) => b.revenue - a.revenue).slice(0, 5)`
(source lines 83-85). -/
def topProducts (l : List Order) : List PGroup :=
  ((productSales l).mergeSort revDescB).take 5

/-- `products.find(p => p.id === item.productId)` (source line 91). -/
def findProduct (ps : List Product) (pid : String) : Option Product :=
  ps.find? (fun p => decide (p.id = pid))

/-- `categories.find(c => c.id === product.categoryId)` (source line 93). -/
def findCategory (cs : List Category) (cid : String) : Option Category :=
  cs.find? (fun c => decide (c.id = cid))

/-- Category-name resolution for one line item (source lines 91-94).
`none` means the `if (product)` guard failed and the item is skipped
entirely; otherwise `category?.name || 'Unknown'` (a missing category, and
also a category whose name is the empty string, are both falsy). -/
def catNameFor (ps : List Product) (cs : List Category) (it : LineItem) :
    Option String :=
  match findProduct ps it.productId with
  | none => none
  | some p =>
    match findCategory cs p.categoryId with
    | none => some "Unknown"
    | some c => some (if c.name = "" then "Unknown" else c.name)

/-- `categoryRevenue[name] = (categoryRevenue[name] || 0) + v` on the
insertion-ordered accumulator object. -/
def addRev (acc : List (String × Rat)) (k : String) (v : Rat) :
    List (String × Rat) :=
  match acc with
  | [] => [(k, v)]
  | kv :: rest =>
    if kv.1 = k then (kv.1, kv.2 + v) :: rest else kv :: addRev rest k v

/-- One line item's effect on `categoryRevenue` (source lines 90-97):
skipped when the product lookup fails, otherwise accumulated under the
resolved name. -/
def addCat (ps : List Product) (cs : List Category)
    (acc : List (String × Rat)) (it : LineItem) : List (String × Rat) :=
  match catNameFor ps cs it with
  | none => acc
  | some nm => addRev acc nm (it.price * it.quantity)

/-- `categoryRevenue` after the nested loops, as
`Object.entries` pairs in key insertion order (source lines 88-99). -/
def revenueByCategory (l : List Order) (ps : List Product)
    (cs : List Category) : List (String × Rat) :=
  l.foldl (fun acc o => o.products.foldl (addCat ps cs) acc) []

/-- Calendar-day bucket key of an instant. -/
def dayKey (t : Int) : Int := t.fdiv msPerDay

/-- The date key of an order (source line 104); `none` models the
string key "Unknown" produced for a missing timestamp. -/
def dateKeyOf (o : Order) : Option Int := o.createdAt.map dayKey

/-- One entry of the `salesByDate` accumulator. -/
structure DBucket where
  date : Option Int
  sales : Nat
  revenue : Rat
  deriving DecidableEq, Repr

/-- One order's effect on `salesByDate` (source lines 104-109). -/
def addDate (acc : List DBucket) (k : Option Int) (amt : Rat) : List DBucket :=
  match acc with
  | [] => [{ date := k, sales := 1, revenue := amt }]
  | b :: rest =>
    if b.date = k then
      { b with sales := b.sales + 1, revenue := b.revenue + amt } :: rest
    else b :: addDate rest k amt

/-- The `salesByDate` object in key insertion order (source lines 102-110). -/
def salesByDate (l : List Order) : List DBucket :=
  l.foldl (fun acc o => addDate acc (dateKeyOf o) (amtOf o)) []

/-- Boolean form of the comparator
`(a, b) => new Date(a.date).getTime() - new Date(b.date).getTime()`;
a comparator value of `NaN` (an "Unknown" key on either side) is treated as
`0` by `Array.prototype.sort`, hence `true` here on either `none`. -/
def dateAscB (a b : DBucket) : Bool :=
  match a.date, b.date with
  | some x, some y => decide (x ≤ y)
  | _, _ => true

/-- `slice(-14)`: the last `n` elements. -/
def takeLast (n : Nat) (l : List α) : List α := l.drop (l.length - n)

/-- `Object.entries(salesByDate).map(...).sort(by date).slice(-14)`
(source lines 111-114). -/
def salesOverTime (l : List Order) : List DBucket :=
  takeLast 14 ((salesByDate l).mergeSort dateAscB)

/-- `order.status || 'Unknown'` (source line 119): a missing status, and the
falsy empty string, both become "Unknown". -/
def statusKey (o : Order) : String :=
  match o.status with
  | none => "Unknown"
  | some s => if s = "" then "Unknown" else s

/-- `statusCount[status] = (statusCount[status] || 0) + 1`. -/
def addCount (acc : List (String × Nat)) (k : String) : List (String × Nat) :=
  match acc with
  | [] => [(k, 1)]
  | kv :: rest =>
    if kv.1 = k then (kv.1, kv.2 + 1) :: rest else kv :: addCount rest k

/-- The `statusCount` object in key insertion order (source lines 117-121). -/
def statusCount (l : List Order) : List (String × Nat) :=
  l.foldl (fun acc o => addCount acc (statusKey o)) []

/-- `Object.entries(statusCount)` (source line 122). -/
def ordersByStatus (l : List Order) : List (String × Nat) := statusCount l

/-- The value handed to `setAnalytics` (source lines 124-132). -/
structure AnalyticsReport where
  totalRevenue : Rat
  totalOrders : Nat
  averageOrderValue : Rat
  topProducts : List PGroup
  revenueByCategory : List (String × Rat)
  salesOverTime : List DBucket
  ordersByStatus : List (String × Nat)
  deriving DecidableEq, Repr

/-- The whole aggregation of `fetchAnalytics` (source lines 57-132) as a
function of the snapshot, the current instant, and the window parameter. -/
def fetchAnalytics (s : Snapshot) (now windowDays : Int) : AnalyticsReport :=
  let filtered := filterByWindow s.orders now windowDays
  { totalRevenue := totalRevenue filtered
    totalOrders := totalOrders filtered
    averageOrderValue := averageOrderValue filtered
    topProducts := topProducts filtered
    revenueByCategory := revenueByCategory filtered s.products s.categories
    salesOverTime := salesOverTime filtered
    ordersByStatus := ordersByStatus filtered }

/-- State-passing form of the aggregation, returning the snapshot the three
collections hold after the computation.  Every loop in the source
(lines 62-122) only reads `orders` / `products` / `categories` and their
elements; every assignment targets a freshly allocated local accumulator
(`productSales`, `categoryRevenue`, `salesByDate`, `statusCount`) or the
local `cutoffDate`, so the threaded snapshot comes back unchanged. -/
def fetchAnalyticsState (s : Snapshot) (now windowDays : Int) :
    AnalyticsReport × Snapshot :=
  (fetchAnalytics s now windowDays, s)

/-- Revenue of one line item, `item.price * item.quantity`. -/
def itemRevenue (it : LineItem) : Rat := it.price * it.quantity

/-- All line items of a list of orders, in iteration order. -/
def itemsOf (l : List Order) : List LineItem :=
  l.flatMap (fun o => o.products)

/-- Sum of the values of a string-keyed revenue map. -/
def sumRevValues (acc : List (String × Rat)) : Rat :=
  (acc.map (fun kv => kv.2)).sum

/-- Value stored under a key of a revenue map (0 when absent). -/
def lookupRev (acc : List (String × Rat)) (k : String) : Rat :=
  ((acc.find? (fun kv => decide (kv.1 = k))).map (fun kv => kv.2)).getD 0

/-- Sum of the counts of a status histogram. -/
def sumCounts (acc : List (String × Nat)) : Nat :=
  (acc.map (fun kv => kv.2)).sum

/-- Count stored under a key of a status histogram (0 when absent). -/
def lookupCount (acc : List (String × Nat)) (k : String) : Nat :=
  ((acc.find? (fun kv => decide (kv.1 = k))).map (fun kv => kv.2)).getD 0

/-- Total line-item revenue of an order set. -/
def lineRevenueTotal (l : List Order) : Rat :=
  ((itemsOf l).map itemRevenue).sum

/-- Line-item revenue restricted to items whose product id resolves. -/
def resolvableRevenueTotal (ps : List Product) (l : List Order) : Rat :=
  (((itemsOf l).filter
      (fun it => (findProduct ps it.productId).isSome)).map itemRevenue).sum

/-- Sum of the revenues of a list of product groups. -/
def sumPGRevenue (g : List PGroup) : Rat :=
  (g.map (fun x => x.revenue)).sum

/-- Revenue accumulated for one product id (0 when absent). -/
def pgRevenueOf (g : List PGroup) (pid : String) : Rat :=
  ((g.find? (fun x => decide (x.productId = pid))).map
    (fun x => x.revenue)).getD 0

/-- Concrete line item used in witnesses and counterexamples. -/
def demoItem : LineItem := ⟨"p1", "Shirt", 5, 2⟩

/-- Concrete order created one day before `demoNow`. -/
def demoOrder : Order := ⟨"o1", some (29 * msPerDay), some 10, some "Pending", [demoItem]⟩

/-- Concrete current instant: 30 days after the epoch. -/
def demoNow : Int := 30 * msPerDay

/-- Snapshot whose product collection does not contain the referenced id. -/
def demoSnapshotBare : Snapshot := ⟨[demoOrder], [], []⟩

/-- Snapshot in which every reference resolves. -/
def demoSnapshotFull : Snapshot := ⟨[demoOrder], [⟨"p1", "c1"⟩], [⟨"c1", "Tees"⟩]⟩

/-- Order with a missing timestamp. -/
def demoOrderNoTs : Order := ⟨"o2", none, some 3, none, []⟩

/-- Order whose status is present but is the empty string. -/
def demoOrderEmptyStatus : Order := ⟨"o3", some (29 * msPerDay), some 0, some "", []⟩

/-- Order from the first quarter of the epoch day. -/
def demoOrderEarly : Order := ⟨"o4", some (msPerDay / 4), none, none, []⟩

/-- Twenty orders on twenty consecutive distinct calendar days. -/
def demoOrders20 : List Order := (List.range 20).map (fun i =>
  ⟨toString i, some (((i : Int) + 1) * msPerDay + 10), some 1, some "Pending", []⟩)

/-- Calendar day of a bucket, with 0 standing in for the "Unknown" sentinel
(only used on buckets whose date is present). -/
def dateValOf (b : DBucket) : Int := b.date.getD 0

/-- Line item with revenue 2 * 5 = 10. -/
def demoItemA : LineItem := ⟨"pa", "A", 2, 5⟩

/-- Line item with revenue 5 * 2 = 10, tying with `demoItemA`. -/
def demoItemB : LineItem := ⟨"pb", "B", 5, 2⟩

/-- Order holding the two tying line items, `demoItemA` first. -/
def demoOrderTie : Order :=
  ⟨"o5", some (29 * msPerDay), some 20, some "Pending", [demoItemA, demoItemB]⟩

/-! Helper lemmas about the accumulator upserts and folds. -/

theorem foldl_nested_eq_items (g : β → LineItem → β) :
    ∀ (l : List Order) (init : β),
      l.foldl (fun acc o => o.products.foldl g acc) init =
        (itemsOf l).foldl g init := by
  intro l
  induction l with
  | nil => intro init; simp [itemsOf]
  | cons o t ih =>
    intro init
    simp only [List.foldl_cons, itemsOf, List.flatMap_cons, List.foldl_append]
    exact ih _

theorem sumRevValues_addRev (acc : List (String × Rat)) (k : String) (v : Rat) :
    sumRevValues (addRev acc k v) = sumRevValues acc + v := by
  induction acc with
  | nil => simp [addRev, sumRevValues]
  | cons kv rest ih =>
    by_cases h : kv.1 = k
    · simp [addRev, h, sumRevValues]; ring
    · simp only [addRev, if_neg h, sumRevValues, List.map_cons, List.sum_cons]
      rw [show (rest.map (fun x => x.2)).sum = sumRevValues rest from rfl]
      rw [show ((addRev rest k v).map (fun x => x.2)).sum =
        sumRevValues (addRev rest k v) from rfl, ih]
      ring

theorem lookupRev_cons_eq {kv : String × Rat} {rest : List (String × Rat)}
    {k2 : String} (h : kv.1 = k2) : lookupRev (kv :: rest) k2 = kv.2 := by
  simp [lookupRev, List.find?, h]

theorem lookupRev_cons_ne {kv : String × Rat} {rest : List (String × Rat)}
    {k2 : String} (h : ¬kv.1 = k2) :
    lookupRev (kv :: rest) k2 = lookupRev rest k2 := by
  simp [lookupRev, List.find?, h]

theorem lookupRev_addRev (acc : List (String × Rat)) (k : String) (v : Rat)
    (k2 : String) :
    lookupRev (addRev acc k v) k2 = lookupRev acc k2 + (if k2 = k then v else 0) := by
  induction acc with
  | nil =>
    by_cases h : k2 = k
    · subst h; simp [addRev, lookupRev, List.find?]
    · simp [addRev, lookupRev, List.find?, h, Ne.symm h]
  | cons kv rest ih =>
    by_cases h : kv.1 = k
    · by_cases h2 : kv.1 = k2
      · have hk : k2 = k := by rw [← h2, h]
        rw [addRev, if_pos h, @lookupRev_cons_eq (kv.1, kv.2 + v) rest k2 h2,
          lookupRev_cons_eq h2, if_pos hk]
      · have hk : ¬k2 = k := fun hh => h2 (by rw [h, ← hh])
        rw [addRev, if_pos h, @lookupRev_cons_ne (kv.1, kv.2 + v) rest k2 h2,
          lookupRev_cons_ne h2, if_neg hk]
        ring
    · by_cases h2 : kv.1 = k2
      · have hk : ¬k2 = k := fun hh => h (by rw [h2, hh])
        rw [addRev, if_neg h, lookupRev_cons_eq h2, lookupRev_cons_eq h2,
          if_neg hk]
        ring
      · rw [addRev, if_neg h, lookupRev_cons_ne h2, lookupRev_cons_ne h2, ih]

theorem sumCounts_addCount (acc : List (String × Nat)) (k : String) :
    sumCounts (addCount acc k) = sumCounts acc + 1 := by
  induction acc with
  | nil => simp [addCount, sumCounts]
  | cons kv rest ih =>
    by_cases h : kv.1 = k
    · simp [addCount, h, sumCounts]; ring
    · simp only [addCount, if_neg h, sumCounts, List.map_cons, List.sum_cons]
      rw [show ((addCount rest k).map (fun x => x.2)).sum =
        sumCounts (addCount rest k) from rfl, ih]
      rw [show (rest.map (fun x => x.2)).sum = sumCounts rest from rfl]
      ring

theorem lookupCount_cons_eq {kv : String × Nat} {rest : List (String × Nat)}
    {k2 : String} (h : kv.1 = k2) : lookupCount (kv :: rest) k2 = kv.2 := by
  simp [lookupCount, List.find?, h]

theorem lookupCount_cons_ne {kv : String × Nat} {rest : List (String × Nat)}
    {k2 : String} (h : ¬kv.1 = k2) :
    lookupCount (kv :: rest) k2 = lookupCount rest k2 := by
  simp [lookupCount, List.find?, h]

theorem lookupCount_addCount (acc : List (String × Nat)) (k k2 : String) :
    lookupCount (addCount acc k) k2 =
      lookupCount acc k2 + (if k2 = k then 1 else 0) := by
  induction acc with
  | nil =>
    by_cases h : k2 = k
    · subst h; simp [addCount, lookupCount, List.find?]
    · simp [addCount, lookupCount, List.find?, h, Ne.symm h]
  | cons kv rest ih =>
    by_cases h : kv.1 = k
    · by_cases h2 : kv.1 = k2
      · have hk : k2 = k := by rw [← h2, h]
        rw [addCount, if_pos h, @lookupCount_cons_eq (kv.1, kv.2 + 1) rest k2 h2,
          lookupCount_cons_eq h2, if_pos hk]
      · have hk : ¬k2 = k := fun hh => h2 (by rw [h, ← hh])
        rw [addCount, if_pos h, @lookupCount_cons_ne (kv.1, kv.2 + 1) rest k2 h2,
          lookupCount_cons_ne h2, if_neg hk]
        omega
    · by_cases h2 : kv.1 = k2
      · have hk : ¬k2 = k := fun hh => h (by rw [h2, hh])
        rw [addCount, if_neg h, lookupCount_cons_eq h2, lookupCount_cons_eq h2,
          if_neg hk]
        omega
      · rw [addCount, if_neg h, lookupCount_cons_ne h2, lookupCount_cons_ne h2,
          ih]

theorem sumCounts_statusFold :
    ∀ (l : List Order) (acc : List (String × Nat)),
      sumCounts (l.foldl (fun a o => addCount a (statusKey o)) acc) =
        sumCounts acc + l.length := by
  intro l
  induction l with
  | nil => intro acc; simp
  | cons o t ih =>
    intro acc
    simp only [List.foldl_cons, List.length_cons]
    rw [ih, sumCounts_addCount]
    ring

theorem lookupCount_statusFold (s : String) :
    ∀ (l : List Order) (acc : List (String × Nat)),
      lookupCount (l.foldl (fun a o => addCount a (statusKey o)) acc) s =
        lookupCount acc s + l.countP (fun o => decide (statusKey o = s)) := by
  intro l
  induction l with
  | nil => intro acc; simp
  | cons o t ih =>
    intro acc
    simp only [List.foldl_cons, List.countP_cons]
    rw [ih, lookupCount_addCount]
    by_cases h : statusKey o = s
    · simp [h]; ring
    · simp [h, Ne.symm h]

theorem sumRevValues_catFold (ps : List Product) (cs : List Category) :
    ∀ (items : List LineItem) (acc : List (String × Rat)),
      sumRevValues (items.foldl (addCat ps cs) acc) =
        sumRevValues acc +
          ((items.filter (fun it => (catNameFor ps cs it).isSome)).map
            itemRevenue).sum := by
  intro items
  induction items with
  | nil => intro acc; simp
  | cons i t ih =>
    intro acc
    simp only [List.foldl_cons, List.filter_cons]
    cases h : catNameFor ps cs i with
    | none => rw [ih]; simp [addCat, h]
    | some nm =>
      rw [ih]
      simp [addCat, h, sumRevValues_addRev, itemRevenue]
      ring

theorem lookupRev_catFold (ps : List Product) (cs : List Category) (nm : String) :
    ∀ (items : List LineItem) (acc : List (String × Rat)),
      lookupRev (items.foldl (addCat ps cs) acc) nm =
        lookupRev acc nm +
          ((items.filter (fun it => decide (catNameFor ps cs it = some nm))).map
            itemRevenue).sum := by
  intro items
  induction items with
  | nil => intro acc; simp
  | cons i t ih =>
    intro acc
    simp only [List.foldl_cons, List.filter_cons]
    cases h : catNameFor ps cs i with
    | none => rw [ih]; simp [addCat, h]
    | some nm2 =>
      rw [ih]
      by_cases h2 : nm2 = nm
      · subst h2
        simp [addCat, h, lookupRev_addRev, itemRevenue]
        ring
      · simp [addCat, h, lookupRev_addRev, h2, Ne.symm h2, itemRevenue]

theorem catFold_of_allNone (ps : List Product) (cs : List Category) :
    ∀ (items : List LineItem) (acc : List (String × Rat)),
      (∀ it ∈ items, catNameFor ps cs it = none) →
      items.foldl (addCat ps cs) acc = acc := by
  intro items
  induction items with
  | nil => intro acc _; rfl
  | cons i t ih =>
    intro acc hall
    simp only [List.foldl_cons]
    rw [show addCat ps cs acc i = acc by simp [addCat, hall i (by simp)]]
    exact ih acc (fun it hit => hall it (by simp [hit]))

theorem sumPGRevenue_addSale (acc : List PGroup) (it : LineItem) :
    sumPGRevenue (addSale acc it) = sumPGRevenue acc + itemRevenue it := by
  induction acc with
  | nil => simp [addSale, sumPGRevenue, itemRevenue]
  | cons g rest ih =>
    by_cases h : g.productId = it.productId
    · simp [addSale, h, sumPGRevenue, itemRevenue]; ring
    · simp only [addSale, if_neg h, sumPGRevenue, List.map_cons, List.sum_cons]
      rw [show ((addSale rest it).map (fun x => x.revenue)).sum =
        sumPGRevenue (addSale rest it) from rfl, ih,
        show (rest.map (fun x => x.revenue)).sum = sumPGRevenue rest from rfl]
      ring

theorem sumPGRevenue_pgFold :
    ∀ (items : List LineItem) (acc : List PGroup),
      sumPGRevenue (items.foldl addSale acc) =
        sumPGRevenue acc + (items.map itemRevenue).sum := by
  intro items
  induction items with
  | nil => intro acc; simp
  | cons i t ih =>
    intro acc
    simp only [List.foldl_cons, List.map_cons, List.sum_cons]
    rw [ih, sumPGRevenue_addSale]
    ring

theorem pgRevenueOf_cons_eq {g : PGroup} {rest : List PGroup} {pid : String}
    (h : g.productId = pid) : pgRevenueOf (g :: rest) pid = g.revenue := by
  simp [pgRevenueOf, List.find?, h]

theorem pgRevenueOf_cons_ne {g : PGroup} {rest : List PGroup} {pid : String}
    (h : ¬g.productId = pid) :
    pgRevenueOf (g :: rest) pid = pgRevenueOf rest pid := by
  simp [pgRevenueOf, List.find?, h]

theorem pgRevenueOf_addSale (acc : List PGroup) (it : LineItem) (pid : String) :
    pgRevenueOf (addSale acc it) pid =
      pgRevenueOf acc pid + (if it.productId = pid then itemRevenue it else 0) := by
  induction acc with
  | nil =>
    by_cases h : it.productId = pid
    · simp [addSale, pgRevenueOf, List.find?, h, itemRevenue]
    · simp [addSale, pgRevenueOf, List.find?, h, itemRevenue]
  | cons g rest ih =>
    by_cases h : g.productId = it.productId
    · by_cases h2 : g.productId = pid
      · have hp : it.productId = pid := by rw [← h]; exact h2
        simp [addSale, h, pgRevenueOf, List.find?, h2, hp, itemRevenue]
      · have hp : ¬it.productId = pid := fun hh => h2 (by rw [h]; exact hh)
        simp [addSale, h, pgRevenueOf, List.find?, h2, hp]
    · by_cases h2 : g.productId = pid
      · have hp : ¬it.productId = pid := fun hh => h (by rw [h2]; exact hh.symm)
        simp only [addSale, if_neg h]
        rw [pgRevenueOf_cons_eq h2, pgRevenueOf_cons_eq h2, if_neg hp]
        ring
      · simp only [addSale, if_neg h]
        rw [@pgRevenueOf_cons_ne g (addSale rest it) pid h2,
            @pgRevenueOf_cons_ne g rest pid h2, ih]

theorem pgRevenueOf_pgFold (pid : String) :
    ∀ (items : List LineItem) (acc : List PGroup),
      pgRevenueOf (items.foldl addSale acc) pid =
        pgRevenueOf acc pid +
          ((items.filter (fun it => decide (it.productId = pid))).map
            itemRevenue).sum := by
  intro items
  induction items with
  | nil => intro acc; simp
  | cons i t ih =>
    intro acc
    simp only [List.foldl_cons, List.filter_cons]
    by_cases h : i.productId = pid
    · rw [ih, pgRevenueOf_addSale]
      simp [h]
      ring
    · rw [ih, pgRevenueOf_addSale]
      simp [h]

theorem catNameFor_isSome (ps : List Product) (cs : List Category)
    (it : LineItem) :
    (catNameFor ps cs it).isSome = (findProduct ps it.productId).isSome := by
  cases h : findProduct ps it.productId with
  | none => simp [catNameFor, h]
  | some p => cases hc : findCategory cs p.categoryId <;> simp [catNameFor, h, hc]

/-! Claim theorems. -/

/-- C1 (amended): a line item whose `productId` matches no product in the
snapshot is skipped entirely by the category reducer, contributing to no
bucket (not even "Unknown"); the sum of `revenueByCategory` therefore covers
only product-resolvable items, and only an item whose product exists but
whose `categoryId` dangles accumulates under "Unknown".  A snapshot whose
single line item references an absent product id yields an empty
`revenueByCategory`. -/
theorem c1_unknown_category_bucket (orders : List Order) (ps : List Product)
    (cs : List Category) (now windowDays : Int) :
    sumRevValues (revenueByCategory (filterByWindow orders now windowDays) ps cs) =
      resolvableRevenueTotal ps (filterByWindow orders now windowDays) ∧
    lookupRev (revenueByCategory (filterByWindow orders now windowDays) ps cs)
        "Unknown" =
      (((itemsOf (filterByWindow orders now windowDays)).filter
          (fun it => decide (catNameFor ps cs it = some "Unknown"))).map
        itemRevenue).sum ∧
    (∀ it : LineItem, findProduct ps it.productId = none →
        catNameFor ps cs it = none) ∧
    (∀ (it : LineItem) (p : Product), findProduct ps it.productId = some p →
        findCategory cs p.categoryId = none →
        catNameFor ps cs it = some "Unknown") ∧
    ((∀ it ∈ itemsOf (filterByWindow orders now windowDays),
        findProduct ps it.productId = none) →
      revenueByCategory (filterByWindow orders now windowDays) ps cs = []) := by
  refine ⟨?_, ?_, ?_, ?_, ?_⟩
  · rw [revenueByCategory, foldl_nested_eq_items, sumRevValues_catFold,
      resolvableRevenueTotal,
      List.filter_congr (fun it _ => catNameFor_isSome ps cs it)]
    simp [sumRevValues]
  · rw [revenueByCategory, foldl_nested_eq_items, lookupRev_catFold]
    simp [lookupRev]
  · intro it h; simp [catNameFor, h]
  · intro it p h hc; simp [catNameFor, h, hc]
  · intro hall
    rw [revenueByCategory, foldl_nested_eq_items]
    exact catFold_of_allNone ps cs _ []
      (fun it hit => by simp [catNameFor, hall it hit])

/-- Witness for C1 at concrete inputs: an unresolvable product id resolves to
no bucket, a dangling category id resolves to "Unknown", and the all-dangling
snapshot yields an empty category map. -/
theorem c1_unknown_category_bucket_witness :
    catNameFor ([] : List Product) ([] : List Category) demoItem = none ∧
    catNameFor [⟨"p1", "c1"⟩] ([] : List Category) demoItem = some "Unknown" ∧
    revenueByCategory (filterByWindow demoSnapshotBare.orders demoNow 7)
      demoSnapshotBare.products demoSnapshotBare.categories = [] :=
  ⟨(c1_unknown_category_bucket demoSnapshotBare.orders [] [] demoNow 7).2.2.1
      demoItem (by decide),
   (c1_unknown_category_bucket demoSnapshotBare.orders [⟨"p1", "c1"⟩] []
      demoNow 7).2.2.2.1 demoItem ⟨"p1", "c1"⟩ (by decide) (by decide),
   (c1_unknown_category_bucket demoSnapshotBare.orders demoSnapshotBare.products
      demoSnapshotBare.categories demoNow 7).2.2.2.2 (by decide)⟩

/-- Counterexample to C1 as stated: one order whose single line item
references a product id absent from the product snapshot produces an empty
`revenueByCategory`, not an "Unknown" bucket holding the item's revenue. -/
theorem c1_counterexample :
    revenueByCategory (filterByWindow demoSnapshotBare.orders demoNow 7)
        demoSnapshotBare.products demoSnapshotBare.categories = [] ∧
    lineRevenueTotal (filterByWindow demoSnapshotBare.orders demoNow 7) = 10 ∧
    lookupRev (revenueByCategory (filterByWindow demoSnapshotBare.orders demoNow 7)
        demoSnapshotBare.products demoSnapshotBare.categories) "Unknown" = 0 := by
  have hf : filterByWindow demoSnapshotBare.orders demoNow 7 = [demoOrder] := by
    decide
  refine ⟨by decide, ?_, by decide⟩
  rw [hf]
  norm_num [lineRevenueTotal, itemsOf, demoOrder, demoItem, itemRevenue]

/-- C2 (amended): the sum over all `productSales` groups equals the total
line-item revenue unconditionally; the `revenueByCategory` sum equals the
revenue of product-resolvable items only; and the full three-way
reconciliation holds when every line item's product id resolves and at most
five distinct product ids occur (so the top-five truncation drops nothing). -/
theorem c2_reconciliation (s : Snapshot) (now windowDays : Int) :
    sumPGRevenue (productSales (filterByWindow s.orders now windowDays)) =
      lineRevenueTotal (filterByWindow s.orders now windowDays) ∧
    sumRevValues (revenueByCategory (filterByWindow s.orders now windowDays)
        s.products s.categories) =
      resolvableRevenueTotal s.products (filterByWindow s.orders now windowDays) ∧
    ((∀ it ∈ itemsOf (filterByWindow s.orders now windowDays),
        (findProduct s.products it.productId).isSome) →
      (productSales (filterByWindow s.orders now windowDays)).length ≤ 5 →
      sumRevValues (revenueByCategory (filterByWindow s.orders now windowDays)
          s.products s.categories) =
        lineRevenueTotal (filterByWindow s.orders now windowDays) ∧
      sumPGRevenue (topProducts (filterByWindow s.orders now windowDays)) =
        lineRevenueTotal (filterByWindow s.orders now windowDays)) := by
  have hg : sumPGRevenue (productSales (filterByWindow s.orders now windowDays)) =
      lineRevenueTotal (filterByWindow s.orders now windowDays) := by
    rw [productSales, foldl_nested_eq_items, sumPGRevenue_pgFold,
      lineRevenueTotal]
    simp [sumPGRevenue]
  have hc : sumRevValues (revenueByCategory (filterByWindow s.orders now windowDays)
      s.products s.categories) =
      resolvableRevenueTotal s.products (filterByWindow s.orders now windowDays) := by
    rw [revenueByCategory, foldl_nested_eq_items, sumRevValues_catFold,
      resolvableRevenueTotal,
      List.filter_congr (fun it _ => catNameFor_isSome s.products s.categories it)]
    simp [sumRevValues]
  refine ⟨hg, hc, ?_⟩
  intro hres hlen
  constructor
  · rw [hc, resolvableRevenueTotal, lineRevenueTotal,
      List.filter_eq_self.mpr hres]
  · have htake : topProducts (filterByWindow s.orders now windowDays) =
        (productSales (filterByWindow s.orders now windowDays)).mergeSort revDescB := by
      rw [topProducts]
      exact List.take_of_length_le (by rw [List.length_mergeSort]; exact hlen)
    rw [htake, ← hg]
    exact List.Perm.sum_eq (List.Perm.map _
      (List.mergeSort_perm (productSales (filterByWindow s.orders now windowDays))
        revDescB))

/-- Witness for C2 at a fully resolvable snapshot with one product. -/
theorem c2_reconciliation_witness :
    sumRevValues (revenueByCategory (filterByWindow demoSnapshotFull.orders demoNow 7)
        demoSnapshotFull.products demoSnapshotFull.categories) =
      lineRevenueTotal (filterByWindow demoSnapshotFull.orders demoNow 7) ∧
    sumPGRevenue (topProducts (filterByWindow demoSnapshotFull.orders demoNow 7)) =
      lineRevenueTotal (filterByWindow demoSnapshotFull.orders demoNow 7) :=
  (c2_reconciliation demoSnapshotFull demoNow 7).2.2 (by decide) (by decide)

/-- Counterexample to C2 as stated: with a dangling product reference the
`revenueByCategory` sum is 0 while the total line-item revenue is 10, so the
three reducers do not reconcile. -/
theorem c2_counterexample :
    lineRevenueTotal (filterByWindow demoSnapshotBare.orders demoNow 7) = 10 ∧
    sumRevValues (revenueByCategory (filterByWindow demoSnapshotBare.orders demoNow 7)
        demoSnapshotBare.products demoSnapshotBare.categories) = 0 ∧
    (10 : Rat) ≠ 0 := by
  have hf : filterByWindow demoSnapshotBare.orders demoNow 7 = [demoOrder] := by
    decide
  refine ⟨?_, by decide, by decide⟩
  rw [hf]
  norm_num [lineRevenueTotal, itemsOf, demoOrder, demoItem, itemRevenue]

/-- C3 (amended): the filter's cutoff is `now` minus `windowDays` days with
the time of day preserved (no truncation to the start of the day); an order
is retained iff `createdAt >= cutoff`; a missing or unparseable timestamp is
treated as the epoch instant and is excluded from any window whose cutoff is
after the epoch. -/
theorem c3_window_filter (orders : List Order) (now windowDays : Int) :
    cutoff now windowDays = now - windowDays * msPerDay ∧
    (∀ o ∈ orders, (o ∈ filterByWindow orders now windowDays ↔
        cutoff now windowDays ≤ tsOf o)) ∧
    (∀ o ∈ orders, o.createdAt = none → 0 < cutoff now windowDays →
        o ∉ filterByWindow orders now windowDays) := by
  refine ⟨rfl, ?_, ?_⟩
  · intro o ho
    simp [filterByWindow, List.mem_filter, ho]
  · intro o _ hnone hpos hmem
    rw [filterByWindow, List.mem_filter] at hmem
    have hle := of_decide_eq_true hmem.2
    rw [tsOf, hnone] at hle
    simp only [Option.getD_none] at hle
    omega

/-- Witness for C3 at concrete inputs: a dated order satisfies the retention
equivalence and an undated order is excluded from the 7-day window. -/
theorem c3_window_filter_witness :
    cutoff demoNow 7 = demoNow - 7 * msPerDay ∧
    (demoOrder ∈ filterByWindow [demoOrder, demoOrderNoTs] demoNow 7 ↔
      cutoff demoNow 7 ≤ tsOf demoOrder) ∧
    demoOrderNoTs ∉ filterByWindow [demoOrder, demoOrderNoTs] demoNow 7 :=
  ⟨(c3_window_filter [demoOrder, demoOrderNoTs] demoNow 7).1,
   (c3_window_filter [demoOrder, demoOrderNoTs] demoNow 7).2.1 demoOrder
      (by decide),
   (c3_window_filter [demoOrder, demoOrderNoTs] demoNow 7).2.2 demoOrderNoTs
      (by decide) rfl (by decide)⟩

/-- Counterexample to C3 as stated: at half past midnight of day 1 with a
1-day window, an order from the first quarter of day 0 is on or after the
day-start-truncated cutoff the claim describes, yet the code excludes it
because the actual cutoff keeps the time of day. -/
theorem c3_counterexample :
    filterByWindow [demoOrderEarly] (msPerDay + msPerDay / 2) 1 = [] ∧
    cutoffSpec (msPerDay + msPerDay / 2) 1 ≤ tsOf demoOrderEarly :=
  ⟨by decide, by decide⟩

/-- C6: the average order value is the guarded quotient: total revenue over
total orders when there is at least one filtered order, and 0 when there are
none (the division is syntactically guarded by the positivity test). -/
theorem c6_average_guarded (orders : List Order) (now windowDays : Int) :
    (totalOrders (filterByWindow orders now windowDays) = 0 →
      averageOrderValue (filterByWindow orders now windowDays) = 0) ∧
    (0 < totalOrders (filterByWindow orders now windowDays) →
      averageOrderValue (filterByWindow orders now windowDays) =
        totalRevenue (filterByWindow orders now windowDays) /
          (totalOrders (filterByWindow orders now windowDays) : Rat)) ∧
    averageOrderValue (filterByWindow orders now windowDays) =
      if 0 < totalOrders (filterByWindow orders now windowDays) then
        totalRevenue (filterByWindow orders now windowDays) /
          (totalOrders (filterByWindow orders now windowDays) : Rat)
      else 0 := by
  refine ⟨?_, ?_, rfl⟩
  · intro h; simp [averageOrderValue, h]
  · intro h; simp [averageOrderValue, h]

/-- Witness for C6: nonempty and empty filtered sets. -/
theorem c6_average_guarded_witness :
    averageOrderValue (filterByWindow [demoOrder] demoNow 7) =
      totalRevenue (filterByWindow [demoOrder] demoNow 7) /
        (totalOrders (filterByWindow [demoOrder] demoNow 7) : Rat) ∧
    averageOrderValue (filterByWindow [] demoNow 7) = 0 :=
  ⟨(c6_average_guarded [demoOrder] demoNow 7).2.1 (by decide),
   (c6_average_guarded [] demoNow 7).1 (by decide)⟩

/-- C7 (amended): the histogram groups by the literal status string for
non-empty statuses with no case normalization, while a missing status and
the falsy empty-string status are both counted under "Unknown". -/
theorem c7_status_histogram (orders : List Order) (now windowDays : Int) :
    (∀ s : String,
      lookupCount (ordersByStatus (filterByWindow orders now windowDays)) s =
        (filterByWindow orders now windowDays).countP
          (fun o => decide (statusKey o = s))) ∧
    (∀ o : Order, o.status = none → statusKey o = "Unknown") ∧
    (∀ (o : Order) (s : String), o.status = some s → s ≠ "" → statusKey o = s) ∧
    (∀ o : Order, o.status = some "" → statusKey o = "Unknown") := by
  refine ⟨?_, ?_, ?_, ?_⟩
  · intro s
    have h := lookupCount_statusFold s (filterByWindow orders now windowDays) []
    simpa [ordersByStatus, statusCount, lookupCount] using h
  · intro o h; simp [statusKey, h]
  · intro o s h hne; simp [statusKey, h, hne]
  · intro o h; simp [statusKey, h]

/-- Witness for C7 at concrete inputs. -/
theorem c7_status_histogram_witness :
    lookupCount (ordersByStatus
        (filterByWindow [demoOrder, demoOrderNoTs] demoNow 7)) "Pending" =
      (filterByWindow [demoOrder, demoOrderNoTs] demoNow 7).countP
        (fun o => decide (statusKey o = "Pending")) ∧
    statusKey demoOrderNoTs = "Unknown" ∧
    statusKey demoOrder = "Pending" ∧
    statusKey demoOrderEmptyStatus = "Unknown" :=
  ⟨(c7_status_histogram [demoOrder, demoOrderNoTs] demoNow 7).1 "Pending",
   (c7_status_histogram [demoOrder, demoOrderNoTs] demoNow 7).2.1
      demoOrderNoTs rfl,
   (c7_status_histogram [demoOrder, demoOrderNoTs] demoNow 7).2.2.1
      demoOrder "Pending" rfl (by decide),
   (c7_status_histogram [demoOrder, demoOrderNoTs] demoNow 7).2.2.2
      demoOrderEmptyStatus rfl⟩

/-- Counterexample to C7 as stated: an order whose status is present but is
the empty string is not grouped under the literal key ""; it lands in the
"Unknown" bucket because `order.status || 'Unknown'` treats "" as falsy. -/
theorem c7_counterexample :
    ordersByStatus (filterByWindow [demoOrderEmptyStatus] demoNow 7) =
      [("Unknown", 1)] ∧
    lookupCount (ordersByStatus
      (filterByWindow [demoOrderEmptyStatus] demoNow 7)) "" = 0 :=
  ⟨by decide, by decide⟩

/-- C8: the aggregation is a pure function of the snapshot, the current
instant and the window parameter, so equal inputs give identical reports. -/
theorem c8_pure_deterministic (s₁ s₂ : Snapshot) (now₁ now₂ w₁ w₂ : Int)
    (hs : s₁ = s₂) (hn : now₁ = now₂) (hw : w₁ = w₂) :
    fetchAnalytics s₁ now₁ w₁ = fetchAnalytics s₂ now₂ w₂ := by
  rw [hs, hn, hw]

/-- Witness for C8 at a concrete snapshot. -/
theorem c8_pure_deterministic_witness :
    fetchAnalytics demoSnapshotFull demoNow 30 =
      fetchAnalytics demoSnapshotFull demoNow 30 :=
  c8_pure_deterministic demoSnapshotFull demoSnapshotFull demoNow demoNow 30 30
    rfl rfl rfl

/-- C9: in the state-passing embedding the snapshot the collections hold
after the aggregation is the snapshot that went in, and the report computed
alongside is the standard one: the engine never mutates its inputs. -/
theorem c9_snapshot_unchanged (s : Snapshot) (now windowDays : Int) :
    (fetchAnalyticsState s now windowDays).2 = s ∧
    (fetchAnalyticsState s now windowDays).1 = fetchAnalytics s now windowDays :=
  ⟨rfl, rfl⟩

theorem addSale_keys (acc : List PGroup) (it : LineItem) :
    (addSale acc it).map (fun g => g.productId) =
      if it.productId ∈ acc.map (fun g => g.productId) then
        acc.map (fun g => g.productId)
      else acc.map (fun g => g.productId) ++ [it.productId] := by
  induction acc with
  | nil => simp [addSale]
  | cons g rest ih =>
    by_cases h : g.productId = it.productId
    · simp [addSale, h]
    · simp only [addSale, if_neg h, List.map_cons, ih, List.mem_cons]
      by_cases hm : it.productId ∈ rest.map (fun g => g.productId)
      · simp [hm, Ne.symm h]
      · simp [hm, Ne.symm h]

theorem pgFold_keys (items : List LineItem) :
    ∀ acc : List PGroup, (acc.map (fun g => g.productId)).Nodup →
      ((items.foldl addSale acc).map (fun g => g.productId)).Nodup ∧
      ((items.foldl addSale acc).map (fun g => g.productId)).toFinset =
        (acc.map (fun g => g.productId)).toFinset ∪
          (items.map (fun it => it.productId)).toFinset := by
  induction items with
  | nil => intro acc h; simp [h]
  | cons i t ih =>
    intro acc h
    simp only [List.foldl_cons, List.map_cons, List.toFinset_cons]
    by_cases hm : i.productId ∈ acc.map (fun g => g.productId)
    · have hkeys : (addSale acc i).map (fun g => g.productId) =
          acc.map (fun g => g.productId) := by rw [addSale_keys, if_pos hm]
      obtain ⟨h1, h2⟩ := ih (addSale acc i) (by rw [hkeys]; exact h)
      refine ⟨h1, ?_⟩
      rw [h2, hkeys]
      ext x
      simp only [Finset.mem_union, Finset.mem_insert, List.mem_toFinset]
      constructor
      · rintro (hx | hx)
        · exact Or.inl hx
        · exact Or.inr (Or.inr hx)
      · rintro (hx | hx | hx)
        · exact Or.inl hx
        · exact Or.inl (by rw [hx]; exact hm)
        · exact Or.inr hx
    · have hkeys : (addSale acc i).map (fun g => g.productId) =
          acc.map (fun g => g.productId) ++ [i.productId] := by
        rw [addSale_keys, if_neg hm]
      have hnd : ((addSale acc i).map (fun g => g.productId)).Nodup := by
        rw [hkeys, List.nodup_append]
        exact ⟨h, by simp, by
          intro x hx hx2
          simp only [List.mem_singleton] at hx2
          exact hm (hx2 ▸ hx)⟩
      obtain ⟨h1, h2⟩ := ih (addSale acc i) hnd
      refine ⟨h1, ?_⟩
      rw [h2, hkeys, List.toFinset_append]
      ext x
      simp only [Finset.mem_union, Finset.mem_insert, List.mem_toFinset,
        List.toFinset_cons, List.toFinset_nil, Finset.mem_singleton,
        Finset.not_mem_empty, or_false, List.mem_singleton]
      tauto

theorem addDate_keys (acc : List DBucket) (k : Option Int) (amt : Rat) :
    (addDate acc k amt).map (fun b => b.date) =
      if k ∈ acc.map (fun b => b.date) then acc.map (fun b => b.date)
      else acc.map (fun b => b.date) ++ [k] := by
  induction acc with
  | nil => simp [addDate]
  | cons b rest ih =>
    by_cases h : b.date = k
    · simp [addDate, h]
    · simp only [addDate, if_neg h, List.map_cons, ih, List.mem_cons]
      by_cases hm : k ∈ rest.map (fun b => b.date)
      · simp [hm, Ne.symm h]
      · simp [hm, Ne.symm h]

theorem dateFold_keys (l : List Order) :
    ∀ acc : List DBucket, (acc.map (fun b => b.date)).Nodup →
      ((l.foldl (fun acc o => addDate acc (dateKeyOf o) (amtOf o)) acc).map
          (fun b => b.date)).Nodup ∧
      ((l.foldl (fun acc o => addDate acc (dateKeyOf o) (amtOf o)) acc).map
          (fun b => b.date)).toFinset =
        (acc.map (fun b => b.date)).toFinset ∪ (l.map dateKeyOf).toFinset := by
  induction l with
  | nil => intro acc h; simp [h]
  | cons o t ih =>
    intro acc h
    simp only [List.foldl_cons, List.map_cons, List.toFinset_cons]
    by_cases hm : dateKeyOf o ∈ acc.map (fun b => b.date)
    · have hkeys : (addDate acc (dateKeyOf o) (amtOf o)).map (fun b => b.date) =
          acc.map (fun b => b.date) := by rw [addDate_keys, if_pos hm]
      obtain ⟨h1, h2⟩ := ih (addDate acc (dateKeyOf o) (amtOf o))
        (by rw [hkeys]; exact h)
      refine ⟨h1, ?_⟩
      rw [h2, hkeys]
      ext x
      simp only [Finset.mem_union, Finset.mem_insert, List.mem_toFinset]
      constructor
      · rintro (hx | hx)
        · exact Or.inl hx
        · exact Or.inr (Or.inr hx)
      · rintro (hx | hx | hx)
        · exact Or.inl hx
        · exact Or.inl (by rw [hx]; exact hm)
        · exact Or.inr hx
    · have hkeys : (addDate acc (dateKeyOf o) (amtOf o)).map (fun b => b.date) =
          acc.map (fun b => b.date) ++ [dateKeyOf o] := by
        rw [addDate_keys, if_neg hm]
      have hnd : ((addDate acc (dateKeyOf o) (amtOf o)).map
          (fun b => b.date)).Nodup := by
        rw [hkeys, List.nodup_append]
        exact ⟨h, by simp, by
          intro x hx hx2
          simp only [List.mem_singleton] at hx2
          exact hm (hx2 ▸ hx)⟩
      obtain ⟨h1, h2⟩ := ih (addDate acc (dateKeyOf o) (amtOf o)) hnd
      refine ⟨h1, ?_⟩
      rw [h2, hkeys, List.toFinset_append]
      ext x
      simp only [Finset.mem_union, Finset.mem_insert, List.mem_toFinset,
        List.toFinset_cons, List.toFinset_nil, Finset.mem_singleton,
        Finset.not_mem_empty, or_false, List.mem_singleton]
      tauto

theorem pair_sublist_of_mem {α : Type} {a b : α} :
    ∀ {l : List α}, a ∈ l → b ∈ l → a ≠ b →
      [a, b].Sublist l ∨ [b, a].Sublist l := by
  intro l
  induction l with
  | nil => intro ha; simp at ha
  | cons x t ih =>
    intro ha hb hne
    rcases List.mem_cons.mp ha with hax | hat
    · subst hax
      rcases List.mem_cons.mp hb with hbx | hbt
      · exact absurd hbx.symm hne
      · exact Or.inl ((List.singleton_sublist.mpr hbt).cons₂ a)
    · rcases List.mem_cons.mp hb with hbx | hbt
      · subst hbx
        exact Or.inr ((List.singleton_sublist.mpr hat).cons₂ b)
      · exact (ih hat hbt hne).imp (List.Sublist.cons x) (List.Sublist.cons x)

theorem pair_sublist_antisymm {α : Type} {a b : α} :
    ∀ {l : List α}, [a, b].Sublist l → [b, a].Sublist l → l.Nodup → a = b := by
  intro l
  induction l with
  | nil => intro h; cases h
  | cons x t ih =>
    intro h1 h2 hnd
    cases h1 with
    | cons _ h1a =>
      cases h2 with
      | cons _ h2a => exact ih h1a h2a (List.nodup_cons.mp hnd).2
      | cons₂ _ h2a =>
        exact absurd (h1a.subset (by simp)) (List.nodup_cons.mp hnd).1
    | cons₂ _ h1a =>
      cases h2 with
      | cons _ h2a =>
        exact absurd (h2a.subset (by simp)) (List.nodup_cons.mp hnd).1
      | cons₂ _ h2a => rfl

/-- C5 (confirmed): `topProducts` groups line items by product id (the
revenue stored for an id is the summed revenue of exactly that id's line
items), has length `min 5 d` for `d` distinct product ids (hence at most 5,
shorter when fewer products exist, never padded), is sorted descending by
revenue, and breaks revenue ties by first-encounter order: tying groups keep
their `productSales` insertion order through the stable sort, and tying
entries of `topProducts` occur in `productSales` order. -/
theorem c5_top_products (orders : List Order) (now windowDays : Int) :
    (topProducts (filterByWindow orders now windowDays)).length ≤ 5 ∧
    (topProducts (filterByWindow orders now windowDays)).length =
      min 5 (((itemsOf (filterByWindow orders now windowDays)).map
        (fun it => it.productId)).toFinset.card) ∧
    (topProducts (filterByWindow orders now windowDays)).Pairwise
      (fun a b => b.revenue ≤ a.revenue) ∧
    (∀ pid : String,
      pgRevenueOf (productSales (filterByWindow orders now windowDays)) pid =
        (((itemsOf (filterByWindow orders now windowDays)).filter
            (fun it => decide (it.productId = pid))).map itemRevenue).sum) ∧
    (∀ a b : PGroup,
      [a, b].Sublist (productSales (filterByWindow orders now windowDays)) →
      a.revenue = b.revenue →
      [a, b].Sublist
        ((productSales (filterByWindow orders now windowDays)).mergeSort
          revDescB)) ∧
    (∀ a b : PGroup,
      [a, b].Sublist (topProducts (filterByWindow orders now windowDays)) →
      a.revenue = b.revenue →
      [a, b].Sublist (productSales (filterByWindow orders now windowDays))) := by
  have htrans : ∀ a b c : PGroup, revDescB a b = true → revDescB b c = true →
      revDescB a c = true := by
    intro a b c hab hbc
    simp only [revDescB, decide_eq_true_eq] at *
    exact le_trans hbc hab
  have htotal : ∀ a b : PGroup, (revDescB a b || revDescB b a) = true := by
    intro a b
    simp only [revDescB, Bool.or_eq_true, decide_eq_true_eq]
    exact le_total b.revenue a.revenue
  have hg : productSales (filterByWindow orders now windowDays) =
      (itemsOf (filterByWindow orders now windowDays)).foldl addSale [] := by
    rw [productSales, foldl_nested_eq_items]
  have hkeys := pgFold_keys (itemsOf (filterByWindow orders now windowDays)) []
    (by simp)
  have hnodupkeys : ((productSales (filterByWindow orders now windowDays)).map
      (fun g => g.productId)).Nodup := by
    rw [hg]; exact hkeys.1
  have hfinset : ((productSales (filterByWindow orders now windowDays)).map
      (fun g => g.productId)).toFinset =
      ((itemsOf (filterByWindow orders now windowDays)).map
        (fun it => it.productId)).toFinset := by
    rw [hg, hkeys.2]; simp
  have hnodup : (productSales (filterByWindow orders now windowDays)).Nodup :=
    List.Nodup.of_map _ hnodupkeys
  have hcard : ((itemsOf (filterByWindow orders now windowDays)).map
      (fun it => it.productId)).toFinset.card =
      (productSales (filterByWindow orders now windowDays)).length := by
    rw [← hfinset, List.toFinset_card_of_nodup hnodupkeys, List.length_map]
  have hlen : (topProducts (filterByWindow orders now windowDays)).length =
      min 5 (((itemsOf (filterByWindow orders now windowDays)).map
        (fun it => it.productId)).toFinset.card) := by
    rw [topProducts, List.length_take, List.length_mergeSort, hcard]
  refine ⟨?_, hlen, ?_, ?_, ?_, ?_⟩
  · rw [hlen]; exact min_le_left 5 _
  · have hs := List.sorted_mergeSort htrans htotal
      (productSales (filterByWindow orders now windowDays))
    have hp := List.Pairwise.sublist (List.take_sublist 5 _) hs
    rw [topProducts]
    exact hp.imp (fun h => by simpa [revDescB] using h)
  · intro pid
    rw [hg, pgRevenueOf_pgFold]
    simp [pgRevenueOf]
  · intro a b hab heq
    exact List.pair_sublist_mergeSort htrans htotal
      (by simp [revDescB, heq]) hab
  · intro a b hab heq
    have hsub : [a, b].Sublist
        ((productSales (filterByWindow orders now windowDays)).mergeSort
          revDescB) := by
      rw [topProducts] at hab
      exact hab.trans (List.take_sublist 5 _)
    have hnds : ((productSales (filterByWindow orders now windowDays)).mergeSort
        revDescB).Nodup :=
      ((List.mergeSort_perm _ revDescB).nodup_iff).mpr hnodup
    have hne : a ≠ b := by
      intro he
      have hdup := List.Nodup.sublist (he ▸ hsub) hnds
      simp at hdup
    have hag : a ∈ productSales (filterByWindow orders now windowDays) :=
      List.mem_mergeSort.mp (hsub.subset (by simp))
    have hbg : b ∈ productSales (filterByWindow orders now windowDays) :=
      List.mem_mergeSort.mp (hsub.subset (by simp))
    rcases pair_sublist_of_mem hag hbg hne with h | h
    · exact h
    · exfalso
      have hba : [b, a].Sublist
          ((productSales (filterByWindow orders now windowDays)).mergeSort
            revDescB) :=
        List.pair_sublist_mergeSort htrans htotal (by simp [revDescB, heq]) h
      exact hne (pair_sublist_antisymm hsub hba hnds)

/-- Witness for C5 on a snapshot with two product groups tying at revenue 10:
the tie keeps its first-encounter order both through the stable sort and in
`topProducts`. -/
theorem c5_top_products_witness :
    (topProducts (filterByWindow [demoOrderTie] demoNow 7)).length ≤ 5 ∧
    (topProducts (filterByWindow [demoOrderTie] demoNow 7)).Pairwise
      (fun a b => b.revenue ≤ a.revenue) ∧
    pgRevenueOf (productSales (filterByWindow [demoOrderTie] demoNow 7)) "pa" =
      (((itemsOf (filterByWindow [demoOrderTie] demoNow 7)).filter
          (fun it => decide (it.productId = "pa"))).map itemRevenue).sum ∧
    [(⟨"pa", "A", 5, 10⟩ : PGroup), ⟨"pb", "B", 2, 10⟩].Sublist
      ((productSales (filterByWindow [demoOrderTie] demoNow 7)).mergeSort
        revDescB) ∧
    [(⟨"pa", "A", 5, 10⟩ : PGroup), ⟨"pb", "B", 2, 10⟩].Sublist
      (productSales (filterByWindow [demoOrderTie] demoNow 7)) := by
  have hf : filterByWindow [demoOrderTie] demoNow 7 = [demoOrderTie] := by
    decide
  have hps : productSales (filterByWindow [demoOrderTie] demoNow 7) =
      [⟨"pa", "A", 5, 10⟩, ⟨"pb", "B", 2, 10⟩] := by
    rw [hf]
    norm_num [productSales, demoOrderTie, demoItemA, demoItemB, addSale]
    decide
  have hpair : [(⟨"pa", "A", 5, 10⟩ : PGroup), ⟨"pb", "B", 2, 10⟩].Sublist
      (productSales (filterByWindow [demoOrderTie] demoNow 7)) := by
    rw [hps]
  have hfwd := (c5_top_products [demoOrderTie] demoNow 7).2.2.2.2.1
    ⟨"pa", "A", 5, 10⟩ ⟨"pb", "B", 2, 10⟩ hpair rfl
  have htp : topProducts (filterByWindow [demoOrderTie] demoNow 7) =
      (productSales (filterByWindow [demoOrderTie] demoNow 7)).mergeSort
        revDescB := by
    rw [topProducts]
    apply List.take_of_length_le
    rw [List.length_mergeSort, hps]
    simp
  have hback := (c5_top_products [demoOrderTie] demoNow 7).2.2.2.2.2
    ⟨"pa", "A", 5, 10⟩ ⟨"pb", "B", 2, 10⟩ (by rw [htp]; exact hfwd) rfl
  exact ⟨(c5_top_products [demoOrderTie] demoNow 7).1,
    (c5_top_products [demoOrderTie] demoNow 7).2.2.1,
    (c5_top_products [demoOrderTie] demoNow 7).2.2.2.1 "pa",
    hfwd, hback⟩

/-- C4 (confirmed for windows whose cutoff is after the epoch, which forces
every filtered order to carry a timestamp): `salesOverTime` has at most 14
buckets, exactly `min 14 d` for `d` distinct calendar dates, every bucket
carries a real date, the sequence is sorted strictly ascending by date, and
the buckets dropped by the `slice(-14)` truncation all predate every kept
bucket (the most recent 14 dates are retained). -/
theorem c4_sales_over_time (orders : List Order) (now windowDays : Int)
    (hpos : 0 < cutoff now windowDays) :
    (salesOverTime (filterByWindow orders now windowDays)).length ≤ 14 ∧
    (salesOverTime (filterByWindow orders now windowDays)).length =
      min 14 (((filterByWindow orders now windowDays).map
        dateKeyOf).toFinset.card) ∧
    (∀ b ∈ salesOverTime (filterByWindow orders now windowDays),
      b.date.isSome) ∧
    (salesOverTime (filterByWindow orders now windowDays)).Pairwise
      (fun a b => dateValOf a < dateValOf b) ∧
    (∀ a ∈ ((salesByDate (filterByWindow orders now windowDays)).mergeSort
        dateAscB).take
        (((salesByDate (filterByWindow orders now windowDays)).mergeSort
          dateAscB).length - 14),
      ∀ b ∈ salesOverTime (filterByWindow orders now windowDays),
        dateValOf a < dateValOf b) := by
  have hk := dateFold_keys (filterByWindow orders now windowDays) [] (by simp)
  have hkeysNodup : ((salesByDate (filterByWindow orders now windowDays)).map
      (fun b => b.date)).Nodup := hk.1
  have hfin : ((salesByDate (filterByWindow orders now windowDays)).map
      (fun b => b.date)).toFinset =
      ((filterByWindow orders now windowDays).map dateKeyOf).toFinset := by
    have h2 := hk.2
    simpa using h2
  have hsome_f : ∀ o ∈ filterByWindow orders now windowDays,
      o.createdAt.isSome := by
    intro o ho
    rw [filterByWindow, List.mem_filter] at ho
    have hle := of_decide_eq_true ho.2
    cases hc : o.createdAt with
    | none =>
      exfalso
      rw [tsOf, hc] at hle
      simp only [Option.getD_none] at hle
      omega
    | some t => simp [hc]
  have hdates_mem : ∀ b ∈ salesByDate (filterByWindow orders now windowDays),
      b.date ∈ (filterByWindow orders now windowDays).map dateKeyOf := by
    intro b hb
    have h1 : b.date ∈ (salesByDate (filterByWindow orders now windowDays)).map
        (fun b => b.date) := List.mem_map_of_mem _ hb
    have h2 := List.mem_toFinset.mpr h1
    rw [hfin] at h2
    exact List.mem_toFinset.mp h2
  have hsomeB : ∀ b ∈ salesByDate (filterByWindow orders now windowDays),
      b.date.isSome := by
    intro b hb
    rcases List.mem_map.mp (hdates_mem b hb) with ⟨o, ho, heq⟩
    have hos := hsome_f o ho
    rcases Option.isSome_iff_exists.mp hos with ⟨t, ht⟩
    rw [← heq, dateKeyOf, ht]
    rfl
  have hcmp : ∀ a ∈ salesByDate (filterByWindow orders now windowDays),
      ∀ b ∈ salesByDate (filterByWindow orders now windowDays),
      dateAscB a b = decide (dateValOf a ≤ dateValOf b) := by
    intro a ha b hb
    rcases Option.isSome_iff_exists.mp (hsomeB a ha) with ⟨x, hx⟩
    rcases Option.isSome_iff_exists.mp (hsomeB b hb) with ⟨y, hy⟩
    simp [dateAscB, hx, hy, dateValOf]
  have hIntTrans : ∀ a b c : Int, decide (a ≤ b) = true →
      decide (b ≤ c) = true → decide (a ≤ c) = true := by
    intro a b c hab hbc
    simp only [decide_eq_true_eq] at *
    omega
  have hIntTotal : ∀ a b : Int, (decide (a ≤ b) || decide (b ≤ a)) = true := by
    intro a b
    simp only [Bool.or_eq_true, decide_eq_true_eq]
    omega
  have hmap := @List.map_mergeSort DBucket Int dateAscB
    (fun x y => decide (x ≤ y)) dateValOf
    (salesByDate (filterByWindow orders now windowDays)) hcmp
  have hsortedInt := List.sorted_mergeSort hIntTrans hIntTotal
    ((salesByDate (filterByWindow orders now windowDays)).map dateValOf)
  rw [← hmap] at hsortedInt
  have hle : ((salesByDate (filterByWindow orders now windowDays)).mergeSort
      dateAscB).Pairwise (fun a b => dateValOf a ≤ dateValOf b) :=
    (List.pairwise_map.mp hsortedInt).imp (fun h => of_decide_eq_true h)
  have hndS : (((salesByDate (filterByWindow orders now windowDays)).mergeSort
      dateAscB).map (fun b => b.date)).Nodup :=
    (((List.mergeSort_perm (salesByDate (filterByWindow orders now windowDays))
      dateAscB).map (fun b => b.date)).nodup_iff).mpr hkeysNodup
  have hneS : ((salesByDate (filterByWindow orders now windowDays)).mergeSort
      dateAscB).Pairwise (fun a b => a.date ≠ b.date) :=
    List.pairwise_map.mp hndS
  have hsomeS : ∀ b ∈ (salesByDate (filterByWindow orders now windowDays)).mergeSort
      dateAscB, b.date.isSome :=
    fun b hb => hsomeB b (List.mem_mergeSort.mp hb)
  have hstrict : ((salesByDate (filterByWindow orders now windowDays)).mergeSort
      dateAscB).Pairwise (fun a b => dateValOf a < dateValOf b) := by
    have hcomb := hle.and hneS
    have hmem := List.Pairwise.and_mem.mp hcomb
    refine hmem.imp ?_
    rintro a b ⟨haS, hbS, hle2, hne2⟩
    rcases Option.isSome_iff_exists.mp (hsomeS a haS) with ⟨x, hx⟩
    rcases Option.isSome_iff_exists.mp (hsomeS b hbS) with ⟨y, hy⟩
    refine lt_of_le_of_ne hle2 ?_
    intro heq
    apply hne2
    rw [dateValOf, dateValOf, hx, hy] at heq
    simp only [Option.getD_some] at heq
    rw [hx, hy, heq]
  have hdrop : salesOverTime (filterByWindow orders now windowDays) =
      ((salesByDate (filterByWindow orders now windowDays)).mergeSort
        dateAscB).drop
      (((salesByDate (filterByWindow orders now windowDays)).mergeSort
        dateAscB).length - 14) := rfl
  have hcard : ((filterByWindow orders now windowDays).map
      dateKeyOf).toFinset.card =
      (salesByDate (filterByWindow orders now windowDays)).length := by
    rw [← hfin, List.toFinset_card_of_nodup hkeysNodup, List.length_map]
  refine ⟨?_, ?_, ?_, ?_, ?_⟩
  · rw [hdrop, List.length_drop]
    omega
  · rw [hdrop, List.length_drop, List.length_mergeSort, hcard]
    omega
  · intro b hb
    rw [hdrop] at hb
    exact hsomeS b ((List.drop_sublist _ _).subset hb)
  · rw [hdrop]
    exact List.Pairwise.sublist (List.drop_sublist _ _) hstrict
  · intro a ha b hb
    rw [hdrop] at hb
    have hsplit := List.take_append_drop
      (((salesByDate (filterByWindow orders now windowDays)).mergeSort
        dateAscB).length - 14)
      ((salesByDate (filterByWindow orders now windowDays)).mergeSort dateAscB)
    have hpw : (((salesByDate (filterByWindow orders now windowDays)).mergeSort
        dateAscB).take
        (((salesByDate (filterByWindow orders now windowDays)).mergeSort
          dateAscB).length - 14) ++
        ((salesByDate (filterByWindow orders now windowDays)).mergeSort
          dateAscB).drop
        (((salesByDate (filterByWindow orders now windowDays)).mergeSort
          dateAscB).length - 14)).Pairwise
        (fun a b => dateValOf a < dateValOf b) := by
      rw [hsplit]
      exact hstrict
    exact (List.pairwise_append.mp hpw).2.2 a ha b hb

/-- Witness for C4: twenty orders on twenty distinct calendar days inside a
29-day window yield exactly 14 strictly ascending buckets. -/
theorem c4_sales_over_time_witness :
    0 < cutoff (30 * msPerDay) 29 ∧
    (salesOverTime (filterByWindow demoOrders20 (30 * msPerDay) 29)).length = 14 ∧
    (salesOverTime (filterByWindow demoOrders20 (30 * msPerDay) 29)).Pairwise
      (fun a b => dateValOf a < dateValOf b) := by
  have h := c4_sales_over_time demoOrders20 (30 * msPerDay) 29 (by decide)
  refine ⟨by decide, ?_, h.2.2.2.1⟩
  rw [h.2.1]
  decide

/-- C10: the status-histogram counts sum to the number of filtered orders:
each filtered order lands in exactly one bucket. -/
theorem c10_status_counts_reconcile (orders : List Order) (now windowDays : Int) :
    sumCounts (ordersByStatus (filterByWindow orders now windowDays)) =
      totalOrders (filterByWindow orders now windowDays) := by
  have h := sumCounts_statusFold (filterByWindow orders now windowDays) []
  simpa [ordersByStatus, statusCount, totalOrders, sumCounts] using h

end HuskThreads
